import Mathlib

/-!
Verification of the Tool Registry & Multi-Transport Session Protocol Layer
of the colby-mcp worker.

The development shallowly embeds the TypeScript source:
  - `src/agents/my-mcp.ts` : the schema compiler (`scalarField`,
    `jsonSchemaFromField`), remote-tool registration (`registerRemoteTools`);
  - `src/agents/mcp.ts` (the agent/transport file) : the tool registry
    (`registerTool`, `invokeTool`), the two transports, the split-channel
    (SSE) session handler, and the lazy initializer (`ensureInitialized`).

JavaScript values carried over the wire are modelled by an inductive `Json`
type; JavaScript objects become association lists whose lookup takes the
first matching key (a parsed JSON object never has duplicate keys).  The
`undefined` of an absent argument object is modelled by `Option`.
-/

namespace ColbyMcp

/-- JSON values (the shapes handled by the worker; numbers are modelled as
integers since no claim depends on numeric fine structure). -/
inductive Json where
  | jnull
  | jbool (b : Bool)
  | jnum (n : Int)
  | jstr (s : String)
  | jarr (xs : List Json)
  | jobj (kvs : List (String × Json))
deriving Repr

/-- A JavaScript object: association list, first binding of a key wins. -/
abbrev JsObject := List (String × Json)

/-- Key lookup in a JavaScript object (first match). -/
def lookupKey (kvs : JsObject) (k : String) : Option Json :=
  match kvs with
  | [] => none
  | (k2, v) :: rest => if k2 = k then some v else lookupKey rest k

/-- RemoteToolField from `src/types.ts`: a tagged descriptor over
string / number / boolean / array / object, each carrying an optional
description and an optional "may be omitted" flag; arrays carry an optional
item descriptor, objects a named-field map (modelled as an association
list, mirroring `Object.entries` order).  The TypeScript union admits no
further tags, so the unreachable `default:` branches of the compilers are
not modelled. -/
inductive RemoteToolField where
  | fstr (descr : Option String) (opt : Bool)
  | fnum (descr : Option String) (opt : Bool)
  | fbool (descr : Option String) (opt : Bool)
  | farr (descr : Option String) (opt : Bool) (items : Option RemoteToolField)
  | fobj (descr : Option String) (opt : Bool) (props : List (String × RemoteToolField))
deriving Repr

/-- The `optional` flag of a field (`field.optional`, absent treated falsy). -/
def RemoteToolField.optional : RemoteToolField → Bool
  | .fstr _ o => o
  | .fnum _ o => o
  | .fbool _ o => o
  | .farr _ o _ => o
  | .fobj _ o _ => o

/-- Wire-schema documents produced by `jsonSchemaFromField`: the exact
shapes the compiler emits.  `jarr _ none` is an array whose `items` is the
empty schema `\x7b\x7d`. -/
inductive JsonSchema where
  | jstr (descr : Option String)
  | jnum (descr : Option String)
  | jbool (descr : Option String)
  | jarr (descr : Option String) (items : Option JsonSchema)
  | jobj (descr : Option String) (props : List (String × JsonSchema)) (req : List String)
deriving Repr

/-- The `required` list computed at an object level of the compiler:
`Object.entries(props).filter(([, v]) => !v.optional).map(([k]) => k)`. -/
def requiredNames (props : List (String × RemoteToolField)) : List String :=
  (props.filter (fun p => !p.2.optional)).map Prod.fst

mutual

/-- `jsonSchemaFromField` of `src/agents/my-mcp.ts` lines 42-73. -/
def jsonSchemaFromField : RemoteToolField → JsonSchema
  | .fstr d _ => .jstr d
  | .fnum d _ => .jnum d
  | .fbool d _ => .jbool d
  | .farr d _ items => .jarr d (jsonSchemaItems items)
  | .fobj d _ props => .jobj d (jsonSchemaProps props) (requiredNames props)

/-- `field.items ? jsonSchemaFromField(field.items) : \x7b\x7d`. -/
def jsonSchemaItems : Option RemoteToolField → Option JsonSchema
  | none => none
  | some f => some (jsonSchemaFromField f)

/-- Compilation of an `Object.entries` property list, key by key. -/
def jsonSchemaProps : List (String × RemoteToolField) → List (String × JsonSchema)
  | [] => []
  | (k, f) :: rest => (k, jsonSchemaFromField f) :: jsonSchemaProps rest

end

mutual

/-- Runtime semantics of the validator built by `scalarField`
(`src/agents/my-mcp.ts` lines 18-40), following zod:
`z.string/number/boolean` accept exactly that primitive; `z.array(inner)`
accepts arrays element-wise (`z.any()` when `items` is absent);
`z.object(shape)` (default strip mode) requires each non-optional declared
key, parses each present declared key by its field validator, and strips
unknown keys.  `none` is a validation failure. -/
def zodParse : RemoteToolField → Json → Option Json
  | .fstr _ _, .jstr s => some (.jstr s)
  | .fstr _ _, _ => none
  | .fnum _ _, .jnum n => some (.jnum n)
  | .fnum _ _, _ => none
  | .fbool _ _, .jbool b => some (.jbool b)
  | .fbool _ _, _ => none
  | .farr _ _ items, .jarr xs => (zodParseElems items xs).map .jarr
  | .farr _ _ _, _ => none
  | .fobj _ _ props, .jobj kvs => (zodParseFields props kvs).map .jobj
  | .fobj _ _ _, _ => none

/-- Element-wise array validation; an absent item descriptor is `z.any()`. -/
def zodParseElems : Option RemoteToolField → List Json → Option (List Json)
  | _, [] => some []
  | none, x :: rest => (zodParseElems none rest).map (fun ys => x :: ys)
  | some f, x :: rest =>
    match zodParse f x, zodParseElems (some f) rest with
    | some y, some ys => some (y :: ys)
    | _, _ => none

/-- Declared-field validation of an object in strip mode: a present key is
parsed by its validator, a missing key is allowed exactly when the field
was wrapped `.optional()` by the compiling parent. -/
def zodParseFields : List (String × RemoteToolField) → JsObject → Option JsObject
  | [], _ => some []
  | (k, f) :: rest, kvs =>
    match lookupKey kvs k with
    | some v =>
      match zodParse f v, zodParseFields rest kvs with
      | some w, some ws => some ((k, w) :: ws)
      | _, _ => none
    | none => if f.optional then zodParseFields rest kvs else none

end

/-- The keys of `args` not declared in the shape: kept verbatim by
`.catchall(z.any())`. -/
def catchallExtras (shape : List (String × RemoteToolField)) (args : JsObject) : JsObject :=
  args.filter (fun kv => !(shape.map Prod.fst).contains kv.1)

/-- Runtime semantics of the top-level remote-tool validator
`z.object(shape).catchall(z.any())` built in `registerRemoteTools`
(`src/agents/my-mcp.ts` lines 384-389): declared fields validated as in an
object, undeclared keys passed through unchanged. -/
def remoteArgsParse (shape : List (String × RemoteToolField)) (args : JsObject) : Option JsObject :=
  (zodParseFields shape args).map (fun ws => ws ++ catchallExtras shape args)

/-- The advertised wire schema built in `registerRemoteTools`
(`src/agents/my-mcp.ts` lines 390-398): object document whose properties
are the compiled declared fields and whose `required` list is the
non-optional declared names. -/
def remoteWireSchema (shape : List (String × RemoteToolField)) : JsonSchema :=
  .jobj none (jsonSchemaProps shape) (requiredNames shape)

/-- Occurrence of a schema document inside another (reflexive, through
array `items` and object properties): the "object levels at any depth" of
a wire document are its occurring `jobj` nodes. -/
inductive JOccurs : JsonSchema → JsonSchema → Prop where
  | refl (s : JsonSchema) : JOccurs s s
  | inArr {s t : JsonSchema} (d : Option String) :
      JOccurs s t → JOccurs s (.jarr d (some t))
  | inObj {s t : JsonSchema} (d : Option String)
      (props : List (String × JsonSchema)) (req : List String) (k : String) :
      (k, t) ∈ props → JOccurs s t → JOccurs s (.jobj d props req)

/-- Occurrence of a field descriptor inside another (reflexive, through
array `items` and object properties). -/
inductive FOccurs : RemoteToolField → RemoteToolField → Prop where
  | refl (f : RemoteToolField) : FOccurs f f
  | inItems {s t : RemoteToolField} (d : Option String) (o : Bool) :
      FOccurs s t → FOccurs s (.farr d o (some t))
  | inProps {s t : RemoteToolField} (d : Option String) (o : Bool)
      (props : List (String × RemoteToolField)) (k : String) :
      (k, t) ∈ props → FOccurs s t → FOccurs s (.fobj d o props)

end ColbyMcp

namespace ColbyMcp

/-- Structural strong induction over the nested inductive
`RemoteToolField`. -/
theorem RemoteToolField.strongInd (P : RemoteToolField → Prop)
    (hstr : ∀ d o, P (.fstr d o))
    (hnum : ∀ d o, P (.fnum d o))
    (hbool : ∀ d o, P (.fbool d o))
    (harrN : ∀ d o, P (.farr d o none))
    (harrS : ∀ d o t, P t → P (.farr d o (some t)))
    (hobj : ∀ d o props, (∀ k t, (k, t) ∈ props → P t) → P (.fobj d o props)) :
    ∀ f, P f
  | .fstr d o => hstr d o
  | .fnum d o => hnum d o
  | .fbool d o => hbool d o
  | .farr d o none => harrN d o
  | .farr d o (some t) =>
    harrS d o t (RemoteToolField.strongInd P hstr hnum hbool harrN harrS hobj t)
  | .fobj d o props =>
    hobj d o props (fun k t ht =>
      have hlt : sizeOf t < 1 + sizeOf d + 1 + sizeOf props := by
        have h1 := List.sizeOf_lt_of_mem ht
        simp at h1
        omega
      RemoteToolField.strongInd P hstr hnum hbool harrN harrS hobj t)
termination_by f => sizeOf f

/-- Compilation of a property list is a pointwise map. -/
theorem jsonSchemaProps_eq_map (props : List (String × RemoteToolField)) :
    jsonSchemaProps props = props.map (fun p => (p.1, jsonSchemaFromField p.2)) := by
  induction props with
  | nil => rfl
  | cons p rest ih =>
    obtain ⟨k, f⟩ := p
    rw [jsonSchemaProps, ih]
    rfl

/-- A key is in the computed `required` list exactly when it names a
declared property whose `optional` flag is unset. -/
theorem mem_requiredNames {props : List (String × RemoteToolField)} {k : String} :
    k ∈ requiredNames props ↔ ∃ fl, (k, fl) ∈ props ∧ fl.optional = false := by
  simp only [requiredNames, List.mem_map, List.mem_filter, Bool.not_eq_eq_eq_not,
    Bool.not_true]
  constructor
  · rintro ⟨⟨a, b⟩, ⟨hmem, hopt⟩, rfl⟩
    exact ⟨b, hmem, hopt⟩
  · rintro ⟨fl, hmem, hopt⟩
    exact ⟨⟨k, fl⟩, ⟨hmem, hopt⟩, rfl⟩

/-- Every object node occurring in the wire document compiled from a field
stems from an object level of the source field, carries the pointwise
compilation of that level, and its `required` list is that level's
non-optional names. -/
theorem jobjNode_of_field (f : RemoteToolField) :
    ∀ dd pp rr, JOccurs (.jobj dd pp rr) (jsonSchemaFromField f) →
      ∃ o props, FOccurs (.fobj dd o props) f ∧
        pp = jsonSchemaProps props ∧ rr = requiredNames props := by
  induction f using RemoteToolField.strongInd with
  | hstr d o =>
    intro dd pp rr hocc
    rw [jsonSchemaFromField] at hocc
    cases hocc
  | hnum d o =>
    intro dd pp rr hocc
    rw [jsonSchemaFromField] at hocc
    cases hocc
  | hbool d o =>
    intro dd pp rr hocc
    rw [jsonSchemaFromField] at hocc
    cases hocc
  | harrN d o =>
    intro dd pp rr hocc
    rw [jsonSchemaFromField, jsonSchemaItems] at hocc
    cases hocc
  | harrS d o t ih =>
    intro dd pp rr hocc
    rw [jsonSchemaFromField, jsonSchemaItems] at hocc
    cases hocc with
    | inArr _ hsub =>
      obtain ⟨o2, props2, hfo, hpp, hrr⟩ := ih dd pp rr hsub
      exact ⟨o2, props2, .inItems d o hfo, hpp, hrr⟩
  | hobj d o props ih =>
    intro dd pp rr hocc
    rw [jsonSchemaFromField] at hocc
    cases hocc with
    | refl => exact ⟨o, props, .refl _, rfl, rfl⟩
    | inObj _ _ _ k hmem hsub =>
      rw [jsonSchemaProps_eq_map, List.mem_map] at hmem
      obtain ⟨⟨k2, fl⟩, hflmem, heq⟩ := hmem
      obtain ⟨hk2, ht⟩ := Prod.mk.injEq .. ▸ heq
      subst hk2
      rw [← ht] at hsub
      obtain ⟨o2, props2, hfo, hpp, hrr⟩ := ih k2 fl hflmem dd pp rr hsub
      exact ⟨o2, props2, .inProps d o props k2 hflmem hfo, hpp, hrr⟩

end ColbyMcp

namespace ColbyMcp

/-- Claim C2: for every RemoteToolField tree, the wire-schema document
derived by the schema compiler has, at every object level (the root
document built by `registerRemoteTools` and every nested object node at
any depth), a `required` list whose set of entries equals exactly the
names of that level's properties not marked optional. -/
theorem wire_schema_required_exact
    (shape : List (String × RemoteToolField)) (dd : Option String)
    (pp : List (String × JsonSchema)) (rr : List String)
    (hocc : JOccurs (.jobj dd pp rr) (remoteWireSchema shape)) :
    ∃ props : List (String × RemoteToolField),
      pp = jsonSchemaProps props ∧ rr = requiredNames props ∧
      (∀ k, k ∈ rr ↔ ∃ fl, (k, fl) ∈ props ∧ fl.optional = false) ∧
      ((dd = none ∧ props = shape) ∨
        ∃ kf ∈ shape, ∃ o, FOccurs (.fobj dd o props) kf.2) := by
  rw [remoteWireSchema] at hocc
  cases hocc with
  | refl =>
    exact ⟨shape, rfl, rfl, fun k => mem_requiredNames, Or.inl ⟨rfl, rfl⟩⟩
  | inObj _ _ _ k hmem hsub =>
    rw [jsonSchemaProps_eq_map, List.mem_map] at hmem
    obtain ⟨⟨k2, fl⟩, hflmem, heq⟩ := hmem
    obtain ⟨hk2, ht⟩ := Prod.mk.injEq .. ▸ heq
    rw [← ht] at hsub
    obtain ⟨o2, props2, hfo, hpp, hrr⟩ := jobjNode_of_field fl dd pp rr hsub
    refine ⟨props2, hpp, hrr, ?_, Or.inr ⟨⟨k2, fl⟩, hflmem, o2, hfo⟩⟩
    intro k3
    rw [hrr]
    exact mem_requiredNames

/-- A concrete two-level shape: a required string and an optional nested
object with one optional and one required field. -/
def shapeW : List (String × RemoteToolField) :=
  [("target", .fstr (some "destination") false),
   ("opts", .fobj none true
      [("depth", .fnum none true), ("label", .fstr none false)])]

/-- Witness for claim C2: the theorem applied to the root object level of
the document compiled from `shapeW`, whose `required` list evaluates to
exactly the non-optional name `target`. -/
theorem wire_schema_required_exact_witness :
    requiredNames shapeW = ["target"] ∧
    ∃ props : List (String × RemoteToolField),
      jsonSchemaProps shapeW = jsonSchemaProps props ∧
      requiredNames shapeW = requiredNames props ∧
      (∀ k, k ∈ requiredNames shapeW ↔
        ∃ fl, (k, fl) ∈ props ∧ fl.optional = false) ∧
      (((none : Option String) = none ∧ props = shapeW) ∨
        ∃ kf ∈ shapeW, ∃ o, FOccurs (.fobj none o props) kf.2) :=
  ⟨rfl, wire_schema_required_exact shapeW none (jsonSchemaProps shapeW)
    (requiredNames shapeW) (JOccurs.refl _)⟩

/-- Appending a binding for a different key does not change a lookup. -/
theorem lookupKey_append_ne (xs : JsObject) (k k2 : String) (v : Json)
    (hne : k ≠ k2) : lookupKey (xs ++ [(k, v)]) k2 = lookupKey xs k2 := by
  induction xs with
  | nil => simp [lookupKey, hne]
  | cons p rest ih =>
    obtain ⟨k3, v3⟩ := p
    by_cases h : k3 = k2
    · simp [lookupKey, h]
    · simp only [List.cons_append, lookupKey, if_neg h]
      exact ih

/-- Declared-field validation ignores an appended undeclared binding. -/
theorem zodParseFields_append_extra (shape : List (String × RemoteToolField))
    (args : JsObject) (k : String) (v : Json)
    (hk : ¬ k ∈ shape.map Prod.fst) :
    zodParseFields shape (args ++ [(k, v)]) = zodParseFields shape args := by
  induction shape with
  | nil => simp [zodParseFields]
  | cons p rest ih =>
    obtain ⟨k2, f⟩ := p
    have hne : k ≠ k2 := by
      intro h
      exact hk (by simp [h])
    have hrest : ¬ k ∈ rest.map Prod.fst := by
      intro h
      exact hk (by simp [h])
    rw [zodParseFields, zodParseFields, lookupKey_append_ne args k k2 v hne,
      ih hrest]

/-- The catchall keeps an appended undeclared binding, at the end. -/
theorem catchallExtras_append (shape : List (String × RemoteToolField))
    (args : JsObject) (k : String) (v : Json)
    (hk : (shape.map Prod.fst).contains k = false) :
    catchallExtras shape (args ++ [(k, v)]) =
      catchallExtras shape args ++ [(k, v)] := by
  have hmem : ¬ k ∈ shape.map Prod.fst := by simpa using hk
  rw [catchallExtras, catchallExtras, List.filter_append]
  simp [List.filter, hmem]

/-- The property names advertised by a wire document. -/
def JsonSchema.propNames : JsonSchema → List String
  | .jobj _ props _ => props.map Prod.fst
  | _ => []

/-- The advertised top-level property names are the declared field names. -/
theorem remoteWireSchema_propNames (shape : List (String × RemoteToolField)) :
    (remoteWireSchema shape).propNames = shape.map Prod.fst := by
  rw [remoteWireSchema, JsonSchema.propNames, jsonSchemaProps_eq_map,
    List.map_map]
  rfl

/-- Claim C9: the runtime validator compiled for a configured remote tool
accepts argument objects carrying properties not declared in the
configured schema — the extra binding passes validation and is forwarded
verbatim in the parsed output — even though the advertised wire schema
lists only the declared property names, so an extra field never causes a
validation failure. -/
theorem remote_validator_accepts_extras
    (shape : List (String × RemoteToolField)) (args : JsObject)
    (k : String) (v : Json) (out : JsObject)
    (hk : (shape.map Prod.fst).contains k = false)
    (h : remoteArgsParse shape args = some out) :
    remoteArgsParse shape (args ++ [(k, v)]) = some (out ++ [(k, v)]) ∧
    (remoteWireSchema shape).propNames = shape.map Prod.fst ∧
    ¬ k ∈ (remoteWireSchema shape).propNames := by
  have hmem : ¬ k ∈ shape.map Prod.fst := by simpa using hk
  rw [remoteArgsParse] at h
  rw [remoteArgsParse, zodParseFields_append_extra shape args k v hmem,
    catchallExtras_append shape args k v hk]
  cases hws : zodParseFields shape args with
  | none =>
    rw [hws] at h
    simp at h
  | some ws =>
    rw [hws] at h
    refine ⟨?_, remoteWireSchema_propNames shape, by
      rw [remoteWireSchema_propNames]; exact hmem⟩
    have hout : ws ++ catchallExtras shape args = out := by simpa using h
    subst hout
    simp [List.append_assoc]

/-- Witness for claim C9: a one-field schema, matching arguments, and an
undeclared extra binding that passes validation and is forwarded. -/
theorem remote_validator_accepts_extras_witness :
    remoteArgsParse [("a", RemoteToolField.fstr none false)]
        ([("a", Json.jstr "x")] ++ [("extra", Json.jnum 1)]) =
      some ([("a", Json.jstr "x")] ++ [("extra", Json.jnum 1)]) ∧
    (remoteWireSchema [("a", RemoteToolField.fstr none false)]).propNames =
      [("a", RemoteToolField.fstr none false)].map Prod.fst ∧
    ¬ "extra" ∈
      (remoteWireSchema [("a", RemoteToolField.fstr none false)]).propNames :=
  remote_validator_accepts_extras [("a", .fstr none false)]
    [("a", .jstr "x")] "extra" (.jnum 1) [("a", .jstr "x")]
    (by decide)
    (by simp [remoteArgsParse, zodParseFields, zodParse, lookupKey, catchallExtras])

end ColbyMcp

namespace ColbyMcp

/-- Errors raised by the registry paths of `invokeTool` / `registerTool`. -/
inductive InvokeError where
  | toolNotFound (name : String)
  | validationError
deriving DecidableEq, Repr

/-- A registered tool: `ToolRegistration` of the agent file lines 24-31.
The zod validator of a statically declared tool is opaque to the registry,
so it is modelled by its parse function (`none` is a rejection); the
handler, also never inspected by the registry, is modelled by an opaque
identifier that `invokeTool` pairs with the parsed arguments.  The opaque
annotation metadata is omitted: no registry decision reads it. -/
structure ToolRegistration where
  name : String
  description : String
  schema : Option (JsObject → Option JsObject)
  jsonSchemaOverride : Option JsonSchema
  handler : Nat

/-- The tool registry: a JS `Map` keyed by `name`, in insertion order. -/
abbrev Registry := List ToolRegistration

/-- `Map.get` / `Map.has` on the registry. -/
def Registry.find (ts : Registry) (name : String) : Option ToolRegistration :=
  match ts with
  | [] => none
  | t :: rest => if t.name = name then some t else Registry.find rest name

/-- `McpAgent.registerTool` (agent file lines 166-187): raise a duplicate
condition when the name is already present — a JS throw happens before the
`set`, so the returned registry is the untouched one — otherwise append
the registration.  The raised error is returned alongside the registry. -/
def registerTool (d : ToolRegistration) (ts : Registry) :
    Registry × Option String :=
  if (Registry.find ts d.name).isSome then (ts, some d.name)
  else (ts ++ [d], none)

/-- The observable of a dispatched invocation: which handler ran, on which
parsed arguments. -/
structure HandlerCall where
  handler : Nat
  args : JsObject
deriving Repr

/-- `McpAgent.invokeTool` (agent file lines 255-269), after the
`ensureInitialized` step: resolve the name (unknown name raises "not
found" before anything else); with a validator, parse `args ?? \x7b\x7d`
and propagate its failure; without one, pass `args ?? \x7b\x7d` through to
the handler untouched.  The absent/`undefined` argument object is the
`none` case. -/
def invokeTool (name : String) (args : Option JsObject) (ts : Registry) :
    Except InvokeError HandlerCall :=
  match Registry.find ts name with
  | none => .error (.toolNotFound name)
  | some t =>
    match t.schema with
    | none => .ok ⟨t.handler, args.getD []⟩
    | some validator =>
      match validator (args.getD []) with
      | none => .error .validationError
      | some parsed => .ok ⟨t.handler, parsed⟩

/-- Appending a fresh-named registration makes its name resolvable. -/
theorem find_append_self (ts : Registry) (d : ToolRegistration)
    (name : String) (hfresh : Registry.find ts name = none)
    (hname : d.name = name) :
    Registry.find (ts ++ [d]) name = some d := by
  induction ts with
  | nil => simp [Registry.find, hname]
  | cons t rest ih =>
    rw [Registry.find] at hfresh
    rw [List.cons_append, Registry.find]
    by_cases h : t.name = name
    · rw [if_pos h] at hfresh
      cases hfresh
    · rw [if_neg h] at hfresh
      rw [if_neg h]
      exact ih hfresh

/-- Claim C1: registering a second definition under an already-registered
name fails with the duplicate-tool condition, whichever of the two
definitions came first (both orders are instances of the statement), and
the failed registration leaves the registry unchanged: the name still
resolves to the first definition. -/
theorem register_duplicate_fails (ts : Registry) (d1 d2 : ToolRegistration)
    (hfresh : Registry.find ts d1.name = none) (hname : d2.name = d1.name) :
    (registerTool d1 ts).2 = none ∧
    (registerTool d2 (registerTool d1 ts).1).2 = some d2.name ∧
    (registerTool d2 (registerTool d1 ts).1).1 = (registerTool d1 ts).1 ∧
    Registry.find (registerTool d2 (registerTool d1 ts).1).1 d1.name =
      some d1 := by
  have h1 : registerTool d1 ts = (ts ++ [d1], none) := by
    rw [registerTool, if_neg (by rw [hfresh]; simp)]
  have hfind : Registry.find (ts ++ [d1]) d2.name = some d1 := by
    rw [hname]
    exact find_append_self ts d1 d1.name hfresh rfl
  have h2 : registerTool d2 (ts ++ [d1]) = (ts ++ [d1], some d2.name) := by
    rw [registerTool, if_pos (by rw [hfind]; simp)]
  have hB2 : (registerTool d1 ts).1 = ts ++ [d1] := by rw [h1]
  have hC : (registerTool d2 (registerTool d1 ts).1).1 =
      (registerTool d1 ts).1 := by rw [hB2, h2]
  refine ⟨by rw [h1], by rw [hB2, h2], hC, ?_⟩
  rw [hC, hB2]
  exact hname ▸ hfind

/-- First definition registered under the name `kv` in the witness. -/
def kvFirst : ToolRegistration :=
  ⟨"kv", "first definition", none, none, 0⟩

/-- Second definition attempted under the same name `kv`. -/
def kvSecond : ToolRegistration :=
  ⟨"kv", "second definition", none, none, 1⟩

/-- Witness for claim C1: on an empty registry, registering `kvFirst`
succeeds, the colliding `kvSecond` fails, and the registry still maps
`kv` to `kvFirst`. -/
theorem register_duplicate_fails_witness :
    (registerTool kvFirst []).2 = none ∧
    (registerTool kvSecond (registerTool kvFirst []).1).2 =
      some kvSecond.name ∧
    (registerTool kvSecond (registerTool kvFirst []).1).1 =
      (registerTool kvFirst []).1 ∧
    Registry.find (registerTool kvSecond (registerTool kvFirst []).1).1
      kvFirst.name = some kvFirst :=
  register_duplicate_fails [] kvFirst kvSecond rfl rfl

/-- Claim C4: invoking a name absent from the registry reports "not
found" and never a validation failure, for every registry state and every
argument object — resolution precedes validation, so no validator runs. -/
theorem invoke_unknown_reports_not_found (ts : Registry) (name : String)
    (args : Option JsObject) (h : Registry.find ts name = none) :
    invokeTool name args ts = .error (.toolNotFound name) ∧
    invokeTool name args ts ≠ .error .validationError := by
  have hrun : invokeTool name args ts = .error (.toolNotFound name) := by
    rw [invokeTool, h]
  refine ⟨hrun, ?_⟩
  rw [hrun]
  simp

/-- Registry holding one tool whose validator rejects every argument. -/
def rejectAllRegistry : Registry :=
  [⟨"kv", "rejects everything", some (fun _ => none), none, 0⟩]

/-- Witness for claim C4: invoking the unregistered name `missing-tool`
on a registry whose only validator rejects everything still reports "not
found", not a validation failure. -/
theorem invoke_unknown_reports_not_found_witness :
    invokeTool "missing-tool" (some []) rejectAllRegistry =
      .error (.toolNotFound "missing-tool") ∧
    invokeTool "missing-tool" (some []) rejectAllRegistry ≠
      .error .validationError :=
  invoke_unknown_reports_not_found rejectAllRegistry "missing-tool"
    (some []) rfl

/-- Claim C7: a tool registered without a validator accepts every
argument object — extra fields included — unchanged, never failing
validation, and an absent/undefined argument object is replaced by the
empty mapping before the handler is called. -/
theorem invoke_schemaless_passes_args (ts : Registry) (name : String)
    (t : ToolRegistration) (args : Option JsObject)
    (hfind : Registry.find ts name = some t) (hschema : t.schema = none) :
    invokeTool name args ts = .ok ⟨t.handler, args.getD []⟩ ∧
    ∀ e, invokeTool name args ts ≠ .error e := by
  have hrun : invokeTool name args ts = .ok ⟨t.handler, args.getD []⟩ := by
    rw [invokeTool, hfind]
    simp [hschema]
  refine ⟨hrun, fun e => ?_⟩
  rw [hrun]
  simp

/-- Registry holding one tool registered without a schema. -/
def schemalessRegistry : Registry :=
  [⟨"ping", "no validator", none, none, 7⟩]

/-- Witness for claim C7: the schemaless tool receives an argument object
with arbitrary extra fields unchanged, and an absent argument object
becomes the empty mapping. -/
theorem invoke_schemaless_passes_args_witness :
    (invokeTool "ping" (some [("extra", Json.jnum 1), ("more", Json.jstr "y")])
        schemalessRegistry =
      .ok ⟨7, [("extra", Json.jnum 1), ("more", Json.jstr "y")]⟩ ∧
     ∀ e, invokeTool "ping"
        (some [("extra", Json.jnum 1), ("more", Json.jstr "y")])
        schemalessRegistry ≠ .error e) ∧
    (invokeTool "ping" none schemalessRegistry = .ok ⟨7, []⟩ ∧
     ∀ e, invokeTool "ping" none schemalessRegistry ≠ .error e) :=
  ⟨invoke_schemaless_passes_args schemalessRegistry "ping"
      ⟨"ping", "no validator", none, none, 7⟩
      (some [("extra", Json.jnum 1), ("more", Json.jstr "y")]) rfl rfl,
   invoke_schemaless_passes_args schemalessRegistry "ping"
      ⟨"ping", "no validator", none, none, 7⟩ none rfl rfl⟩

end ColbyMcp

namespace ColbyMcp

/-- The three event listeners the duplex-socket transport registers on its
first `start()` (agent file lines 62-78). -/
inductive WsListener where
  | message
  | close
  | error
deriving DecidableEq, Repr

/-- Observable state of `WorkerWebSocketTransport`: its `started` flag and
the event listeners registered on the underlying socket. -/
structure WsTransport where
  started : Bool
  listeners : List WsListener
deriving DecidableEq, Repr

/-- `WorkerWebSocketTransport.start` (agent file lines 57-79): a no-op
when already started, otherwise set the flag and register the message,
close and error listeners. -/
def wsStart (t : WsTransport) : WsTransport :=
  if t.started then t
  else ⟨true, t.listeners ++ [.message, .close, .error]⟩

/-- Observable state of `WorkerSseTransport`: its `started` flag (its
`start` touches nothing else, lines 112-117). -/
structure SseTransport where
  started : Bool
deriving DecidableEq, Repr

/-- `WorkerSseTransport.start` (agent file lines 112-117). -/
def sseStart (t : SseTransport) : SseTransport :=
  if t.started then t else ⟨true⟩

/-- Iterating an idempotent function at least once is one application. -/
theorem iterate_idem {α : Type} (f : α → α) (hf : ∀ x, f (f x) = f x)
    (t : α) : ∀ n, f^[n] (f t) = f t
  | 0 => rfl
  | n + 1 => by
    rw [Function.iterate_succ_apply, hf, iterate_idem f hf t n]

/-- Claim C8: on both transport variants, `start()` is idempotent — for
every transport instance, the observable state (started flag, registered
listeners) after `n ≥ 1` calls equals the state after exactly one call. -/
theorem transport_start_idempotent (t : WsTransport) (u : SseTransport)
    (n : Nat) (hn : 1 ≤ n) :
    wsStart^[n] t = wsStart t ∧ sseStart^[n] u = sseStart u := by
  obtain ⟨m, rfl⟩ := Nat.exists_eq_add_of_le hn
  have hws : ∀ x, wsStart (wsStart x) = wsStart x := by
    intro x
    by_cases h : x.started
    · simp [wsStart, h]
    · simp [wsStart, h]
  have hsse : ∀ x, sseStart (sseStart x) = sseStart x := by
    intro x
    by_cases h : x.started
    · simp [sseStart, h]
    · simp [sseStart, h]
  rw [Nat.add_comm 1 m, Function.iterate_succ_apply,
    Function.iterate_succ_apply]
  exact ⟨iterate_idem wsStart hws t m, iterate_idem sseStart hsse u m⟩

/-- Witness for claim C8: three `start()` calls on fresh transports leave
the state of a single call. -/
theorem transport_start_idempotent_witness :
    wsStart^[3] ⟨false, []⟩ = wsStart ⟨false, []⟩ ∧
    sseStart^[3] ⟨false⟩ = sseStart ⟨false⟩ :=
  transport_start_idempotent ⟨false, []⟩ ⟨false⟩ 3 (by decide)

end ColbyMcp

namespace ColbyMcp

/-- Split-channel HTTP responses produced by `handleSseRequest` (agent
file lines 307-404), by status and meaning. -/
inductive SseResponse where
  | streamOpened (id : String)
  | ok200
  | noContent204
  | badRequest400
  | notFound404
  | methodNotAllowed405
deriving DecidableEq, Repr

/-- Observable state behind one registered split-channel session entry:
the messages delivered to its transport via `receive`, whether the event
stream controller is still open, and whether the keep-alive interval is
still scheduled. -/
structure SseSession where
  received : List Json
  streamOpen : Bool
  heartbeatActive : Bool
deriving Repr

/-- The `sseSessions` map of the agent: insertion-ordered, unique keys
(JS `Map`). -/
structure SseState where
  sessions : List (String × SseSession)
deriving Repr

/-- `sseSessions.get(id)`. -/
def lookupSession (ss : List (String × SseSession)) (id : String) :
    Option SseSession :=
  match ss with
  | [] => none
  | (k, s) :: rest => if k = id then some s else lookupSession rest id

/-- `sseSessions.set(id, s)`: replace in place or append. -/
def setSession (ss : List (String × SseSession)) (id : String)
    (s : SseSession) : List (String × SseSession) :=
  match ss with
  | [] => [(id, s)]
  | (k, t) :: rest =>
    if k = id then (k, s) :: rest else (k, t) :: setSession rest id s

/-- Update the entry under a key in place (present case of `set`). -/
def updateSession (ss : List (String × SseSession)) (id : String)
    (f : SseSession → SseSession) : List (String × SseSession) :=
  match ss with
  | [] => []
  | (k, s) :: rest =>
    if k = id then (k, f s) :: rest else (k, s) :: updateSession rest id f

/-- `sseSessions.delete(id)`. -/
def removeSession (ss : List (String × SseSession)) (id : String) :
    List (String × SseSession) :=
  match ss with
  | [] => []
  | (k, s) :: rest => if k = id then rest else (k, s) :: removeSession rest id

/-- The `cleanup` closure (agent file lines 352-356): clear the heartbeat
interval, close the transport (which closes the stream controller), close
the protocol server. -/
def closeSession (s : SseSession) : SseSession :=
  { s with streamOpen := false, heartbeatActive := false }

/-- `WorkerSseTransport.close` alone (agent file lines 134-137), the
server-initiated close path: `closeStream` closes the stream controller
and `onclose` fires — the heartbeat interval stays scheduled and the
`sseSessions` map is not touched, because `controller.close()` does not
run the stream's consumer-side `cancel` callback. -/
def transportCloseSession (s : SseSession) : SseSession :=
  { s with streamOpen := false }

/-- `const messages = Array.isArray(body) ? body : [body]` (line 387). -/
def bodyMessages (body : Json) : List Json :=
  match body with
  | .jarr xs => xs
  | b => [b]

/-- `GET <base>/` (lines 311-374): register a fresh session under the
generated identifier (taken as input, standing for `crypto.randomUUID()`)
and answer with the event stream carrying that identifier. -/
def sseOpen (id : String) (st : SseState) : SseState × SseResponse :=
  (⟨setSession st.sessions id ⟨[], true, true⟩⟩, .streamOpened id)

/-- `POST <base>/<id>` (lines 376-395): `400` on a missing identifier,
`404` when the identifier is not registered, otherwise deliver each body
message to the session's transport via `receive`, in order, and answer
`200` with `ok:true`. -/
def ssePost (id : String) (body : Json) (st : SseState) :
    SseState × SseResponse :=
  if id = "" then (st, .badRequest400)
  else
    match lookupSession st.sessions id with
    | none => (st, .notFound404)
    | some _ =>
      (⟨updateSession st.sessions id
        (fun t => { t with received := t.received ++ bodyMessages body })⟩,
       .ok200)

/-- `DELETE <base>/<id>` (lines 397-401): `400` on a missing identifier,
`404` when not registered, otherwise run the session's `cleanup` and
unregister the identifier, answering `204`. -/
def sseDelete (id : String) (st : SseState) : SseState × SseResponse :=
  if id = "" then (st, .badRequest400)
  else
    match lookupSession st.sessions id with
    | none => (st, .notFound404)
    | some _ =>
      (⟨removeSession (updateSession st.sessions id closeSession) id⟩,
       .noContent204)

/-- Consumer-side stream cancellation (lines 321-327): close the session
if still registered, then unregister the identifier. -/
def sseCancel (id : String) (st : SseState) : SseState :=
  ⟨removeSession (updateSession st.sessions id closeSession) id⟩

/-- Server-initiated close of the session's bound transport
(`transport.close()`): the stream ends but the identifier stays in the
map. -/
def sseServerClose (id : String) (st : SseState) : SseState :=
  ⟨updateSession st.sessions id transportCloseSession⟩

/-- Client-visible and server-side operations on the session manager. -/
inductive SseOp where
  | opOpen (id : String)
  | opPost (id : String) (body : Json)
  | opDelete (id : String)
  | opCancel (id : String)
  | opServerClose (id : String)

/-- State transition of one operation. -/
def sseStep (st : SseState) (op : SseOp) : SseState :=
  match op with
  | .opOpen id => (sseOpen id st).1
  | .opPost id b => (ssePost id b st).1
  | .opDelete id => (sseDelete id st).1
  | .opCancel id => sseCancel id st
  | .opServerClose id => sseServerClose id st

/-- Run a sequence of operations. -/
def sseRun (st : SseState) (ops : List SseOp) : SseState :=
  ops.foldl sseStep st

end ColbyMcp

namespace ColbyMcp

/-- Updating a key rewrites exactly the looked-up entry. -/
theorem lookupSession_update (ss : List (String × SseSession)) (id : String)
    (f : SseSession → SseSession) :
    lookupSession (updateSession ss id f) id =
      (lookupSession ss id).map f := by
  induction ss with
  | nil => rfl
  | cons p rest ih =>
    obtain ⟨k, s⟩ := p
    by_cases h : k = id
    · simp [updateSession, lookupSession, h]
    · simp [updateSession, lookupSession, h, ih]

/-- Updating a different key leaves a lookup unchanged. -/
theorem lookupSession_update_ne (ss : List (String × SseSession))
    (id id2 : String) (f : SseSession → SseSession) (hne : id2 ≠ id) :
    lookupSession (updateSession ss id2 f) id = lookupSession ss id := by
  induction ss with
  | nil => rfl
  | cons p rest ih =>
    obtain ⟨k, s⟩ := p
    by_cases h : k = id2
    · simp [updateSession, lookupSession, h, hne]
    · by_cases h2 : k = id
      · simp [updateSession, lookupSession, h, h2, Ne.symm hne]
      · simp [updateSession, lookupSession, h, h2, ih]

/-- An update never resurrects an unregistered identifier. -/
theorem lookupSession_update_none (ss : List (String × SseSession))
    (id id2 : String) (f : SseSession → SseSession)
    (h : lookupSession ss id = none) :
    lookupSession (updateSession ss id2 f) id = none := by
  by_cases he : id2 = id
  · subst he
    rw [lookupSession_update, h]
    rfl
  · rw [lookupSession_update_ne ss id id2 f he]
    exact h

/-- A removal never resurrects an unregistered identifier. -/
theorem lookupSession_remove_none (ss : List (String × SseSession))
    (id id2 : String) (h : lookupSession ss id = none) :
    lookupSession (removeSession ss id2) id = none := by
  induction ss with
  | nil => rfl
  | cons p rest ih =>
    obtain ⟨k, s⟩ := p
    rw [lookupSession] at h
    by_cases hk : k = id
    · rw [if_pos hk] at h
      cases h
    · rw [if_neg hk] at h
      rw [removeSession]
      by_cases h2 : k = id2
      · rw [if_pos h2]
        exact h
      · rw [if_neg h2, lookupSession, if_neg hk]
        exact ih h

/-- Registering a different identifier leaves a lookup unchanged. -/
theorem lookupSession_set_ne (ss : List (String × SseSession))
    (id id2 : String) (s : SseSession) (hne : id2 ≠ id) :
    lookupSession (setSession ss id2 s) id = lookupSession ss id := by
  induction ss with
  | nil => simp [setSession, lookupSession, hne]
  | cons p rest ih =>
    obtain ⟨k, t⟩ := p
    by_cases h : k = id2
    · simp [setSession, lookupSession, h, hne]
    · by_cases h2 : k = id
      · simp [setSession, lookupSession, h, h2, Ne.symm hne]
      · simp [setSession, lookupSession, h, h2, ih]

/-- An identifier absent from every key never resolves. -/
theorem lookupSession_not_mem (ss : List (String × SseSession)) (id : String)
    (h : ¬ id ∈ ss.map Prod.fst) : lookupSession ss id = none := by
  induction ss with
  | nil => rfl
  | cons p rest ih =>
    obtain ⟨k, s⟩ := p
    have hk : k ≠ id := by
      intro he
      exact h (by simp [he])
    have hrest : ¬ id ∈ rest.map Prod.fst := by
      intro he
      exact h (by simp [he])
    rw [lookupSession, if_neg hk]
    exact ih hrest

/-- With unique keys, removing an identifier unregisters it. -/
theorem lookupSession_remove_self (ss : List (String × SseSession))
    (id : String) (hnodup : (ss.map Prod.fst).Nodup) :
    lookupSession (removeSession ss id) id = none := by
  induction ss with
  | nil => rfl
  | cons p rest ih =>
    obtain ⟨k, s⟩ := p
    rw [List.map_cons, List.nodup_cons] at hnodup
    obtain ⟨hknot, hrest⟩ := hnodup
    rw [removeSession]
    by_cases h : k = id
    · rw [if_pos h]
      subst h
      exact lookupSession_not_mem rest k hknot
    · rw [if_neg h, lookupSession, if_neg h]
      exact ih hrest

/-- One step never resurrects an unregistered identifier unless it is an
open of that very identifier. -/
theorem lookup_none_step (st : SseState) (id : String) (op : SseOp)
    (h : lookupSession st.sessions id = none) (hop : op ≠ .opOpen id) :
    lookupSession (sseStep st op).sessions id = none := by
  cases op with
  | opOpen id2 =>
    have hne : id2 ≠ id := by
      intro he
      exact hop (by rw [he])
    rw [sseStep, sseOpen]
    exact (lookupSession_set_ne st.sessions id id2 _ hne).trans h
  | opPost id2 b =>
    rw [sseStep, ssePost]
    by_cases he : id2 = ""
    · rw [if_pos he]
      exact h
    · rw [if_neg he]
      cases hl : lookupSession st.sessions id2 with
      | none => exact h
      | some s => exact lookupSession_update_none st.sessions id id2 _ h
  | opDelete id2 =>
    rw [sseStep, sseDelete]
    by_cases he : id2 = ""
    · rw [if_pos he]
      exact h
    · rw [if_neg he]
      cases hl : lookupSession st.sessions id2 with
      | none => exact h
      | some s =>
        exact lookupSession_remove_none _ id id2
          (lookupSession_update_none st.sessions id id2 _ h)
  | opCancel id2 =>
    rw [sseStep, sseCancel]
    exact lookupSession_remove_none _ id id2
      (lookupSession_update_none st.sessions id id2 _ h)
  | opServerClose id2 =>
    rw [sseStep, sseServerClose]
    exact lookupSession_update_none st.sessions id id2 _ h

/-- A whole run never resurrects an unregistered identifier unless some
operation opens that very identifier. -/
theorem lookup_none_run (id : String) (ops : List SseOp) :
    ∀ st : SseState, lookupSession st.sessions id = none →
      (∀ op ∈ ops, op ≠ .opOpen id) →
      lookupSession (sseRun st ops).sessions id = none := by
  induction ops with
  | nil =>
    intro st h _
    exact h
  | cons op rest ih =>
    intro st h hops
    rw [sseRun, List.foldl_cons]
    exact ih (sseStep st op)
      (lookup_none_step st id op h (hops op (by simp)))
      (fun o ho => hops o (by simp [ho]))

end ColbyMcp

namespace ColbyMcp

/-- Updating an entry in place never changes the key list. -/
theorem updateSession_keys (ss : List (String × SseSession)) (id : String)
    (f : SseSession → SseSession) :
    (updateSession ss id f).map Prod.fst = ss.map Prod.fst := by
  induction ss with
  | nil => rfl
  | cons p rest ih =>
    obtain ⟨k, s⟩ := p
    by_cases h : k = id
    · simp [updateSession, h]
    · simp [updateSession, h, ih]

/-- Counterexample to claim C5 as stated: after a server-initiated close
of the session's transport (the third close cause), the identifier is
still registered, and a subsequent POST to it responds `200` — not the
required `404` — reaching the stale (stream-closed, heartbeat still
scheduled) session. -/
theorem sse_stale_after_server_close :
    (ssePost "s1" (Json.jobj [])
        (sseServerClose "s1" (sseOpen "s1" ⟨[]⟩).1)).2 = SseResponse.ok200 ∧
    SseResponse.ok200 ≠ SseResponse.notFound404 ∧
    lookupSession (sseServerClose "s1" (sseOpen "s1" ⟨[]⟩).1).sessions "s1" =
      some ⟨[], false, true⟩ :=
  ⟨rfl, by decide, rfl⟩

/-- Claim C5 (amended): a split-channel session is unregistered by client
DELETE and by consumer-side stream cancellation — after either, every
subsequent lookup of the identifier reports "not found" (a POST answers
`404`) for as long as no new stream is opened under that very identifier,
and DELETE on a live identifier responds `204` and removes it exactly
once (a second DELETE answers `404`).  A server-initiated close of the
session's bound transport, however, closes the stream but does not
unregister the identifier: the lookup still returns the stale session and
a subsequent POST answers `200`. -/
theorem sse_session_reachability (st : SseState) (id : String)
    (hid : id ≠ "") (hnodup : (st.sessions.map Prod.fst).Nodup) :
    (∀ s, lookupSession st.sessions id = some s →
      (sseDelete id st).2 = SseResponse.noContent204 ∧
      lookupSession (sseDelete id st).1.sessions id = none ∧
      (sseDelete id (sseDelete id st).1).2 = SseResponse.notFound404 ∧
      (ssePost id (Json.jobj []) (sseDelete id st).1).2 =
        SseResponse.notFound404) ∧
    lookupSession (sseCancel id st).sessions id = none ∧
    (lookupSession st.sessions id = none →
      ∀ ops : List SseOp, (∀ op ∈ ops, op ≠ .opOpen id) →
      lookupSession (sseRun st ops).sessions id = none ∧
      (ssePost id (Json.jobj []) (sseRun st ops)).2 =
        SseResponse.notFound404) ∧
    (∀ s, lookupSession st.sessions id = some s →
      lookupSession (sseServerClose id st).sessions id =
        some { s with streamOpen := false } ∧
      (ssePost id (Json.jobj []) (sseServerClose id st)).2 =
        SseResponse.ok200) := by
  refine ⟨?_, ?_, ?_, ?_⟩
  · intro s hs
    have hnone : lookupSession
        (removeSession (updateSession st.sessions id closeSession) id) id =
          none := by
      apply lookupSession_remove_self
      rw [updateSession_keys]
      exact hnodup
    refine ⟨?_, ?_, ?_, ?_⟩
    · simp [sseDelete, hid, hs]
    · simp [sseDelete, hid, hs, hnone]
    · simp [sseDelete, hid, hs, hnone]
    · simp [ssePost, sseDelete, hid, hs, hnone]
  · rw [sseCancel]
    exact lookupSession_remove_self _ id
      (by rw [updateSession_keys]; exact hnodup)
  · intro hnone ops hops
    have hrun := lookup_none_run id ops st hnone hops
    exact ⟨hrun, by simp [ssePost, hid, hrun]⟩
  · intro s hs
    have hup : lookupSession
        (updateSession st.sessions id transportCloseSession) id =
          some (transportCloseSession s) := by
      rw [lookupSession_update, hs]
      rfl
    exact ⟨hup, by simp [ssePost, sseServerClose, hid, hup]⟩

/-- Session-manager state with one live session for the witnesses. -/
def stLive : SseState := ⟨[("live", ⟨[Json.jnum 0], true, true⟩)]⟩

/-- Witness for claim C5 (amended): on the live session, DELETE answers
`204` and unregisters, cancellation unregisters, and a POST after a
server-initiated transport close still answers `200`. -/
theorem sse_session_reachability_witness :
    (sseDelete "live" stLive).2 = SseResponse.noContent204 ∧
    lookupSession (sseDelete "live" stLive).1.sessions "live" = none ∧
    (sseDelete "live" (sseDelete "live" stLive).1).2 =
      SseResponse.notFound404 ∧
    lookupSession (sseCancel "live" stLive).sessions "live" = none ∧
    (ssePost "live" (Json.jobj []) (sseServerClose "live" stLive)).2 =
      SseResponse.ok200 := by
  have h := sse_session_reachability stLive "live" (by decide) (by simp [stLive])
  obtain ⟨h1, h2, h3, h4⟩ := h
  obtain ⟨ha, hb, hc, hd⟩ := h1 ⟨[Json.jnum 0], true, true⟩ rfl
  obtain ⟨he, hf⟩ := h4 ⟨[Json.jnum 0], true, true⟩ rfl
  exact ⟨ha, hb, hc, h2, hf⟩

/-- Claim C6: a POST whose JSON body is an array of N messages delivers
exactly those N messages, in array order, to the live session's transport
(appended in order to what it received before) and responds `200` with
`ok:true`; a POST whose body is a single non-array message delivers
exactly that one message. -/
theorem sse_post_delivers_in_order (st : SseState) (id : String)
    (s : SseSession) (hid : id ≠ "")
    (hs : lookupSession st.sessions id = some s) :
    (∀ msgs : List Json,
      (ssePost id (Json.jarr msgs) st).2 = SseResponse.ok200 ∧
      lookupSession ((ssePost id (Json.jarr msgs) st).1).sessions id =
        some { s with received := s.received ++ msgs }) ∧
    (∀ b : Json, (∀ xs, b ≠ .jarr xs) →
      (ssePost id b st).2 = SseResponse.ok200 ∧
      lookupSession ((ssePost id b st).1).sessions id =
        some { s with received := s.received ++ [b] }) := by
  have hbody : ∀ b : Json, (∀ xs, b ≠ .jarr xs) → bodyMessages b = [b] := by
    intro b hb
    cases b with
    | jarr xs => exact absurd rfl (hb xs)
    | jnull => rfl
    | jbool v => rfl
    | jnum v => rfl
    | jstr v => rfl
    | jobj v => rfl
  constructor
  · intro msgs
    constructor
    · simp [ssePost, hid, hs]
    · simp [ssePost, hid, hs, lookupSession_update, bodyMessages]
  · intro b hb
    constructor
    · simp [ssePost, hid, hs]
    · simp [ssePost, hid, hs, lookupSession_update, hbody b hb]

/-- Witness for claim C6: posting the two-element array delivers exactly
those two messages in order after the one already received; posting one
non-array object delivers exactly it. -/
theorem sse_post_delivers_in_order_witness :
    ((ssePost "live" (Json.jarr [Json.jnum 1, Json.jnum 2]) stLive).2 =
        SseResponse.ok200 ∧
      lookupSession
        ((ssePost "live" (Json.jarr [Json.jnum 1, Json.jnum 2]) stLive).1).sessions
        "live" = some ⟨[Json.jnum 0, Json.jnum 1, Json.jnum 2], true, true⟩) ∧
    ((ssePost "live" (Json.jobj []) stLive).2 = SseResponse.ok200 ∧
      lookupSession ((ssePost "live" (Json.jobj []) stLive).1).sessions
        "live" = some ⟨[Json.jnum 0, Json.jobj []], true, true⟩) := by
  have h := sse_post_delivers_in_order stLive "live"
    ⟨[Json.jnum 0], true, true⟩ (by decide) rfl
  obtain ⟨h1, h2⟩ := h
  constructor
  · have := h1 [Json.jnum 1, Json.jnum 2]
    simpa using this
  · have := h2 (Json.jobj []) (fun xs => by simp)
    simpa using this

end ColbyMcp

namespace ColbyMcp

/-- Registration of a list of tool names in order, as `registerTool` runs
them: a name already present raises the duplicate condition at that point
(the names registered before the raise stay registered, the rest are not
attempted); the raised name is returned alongside the registry. -/
def registerNames (names : List String) (ts : List String) :
    List String × Option String :=
  match names with
  | [] => (ts, none)
  | n :: rest =>
    if ts.contains n then (ts, some n)
    else registerNames rest (ts ++ [n])

/-- The five static registrations `MyMCP.init` performs synchronously
(`src/agents/my-mcp.ts` lines 84-91) before it suspends at
`await this.registerRemoteTools()`. -/
def builtinTools : List String :=
  ["browser_render", "d1_query", "kv", "vectorize", "durable_task"]

/-- Global agent state observed by `ensureInitialized` (agent file lines
189-199): the `initialized` flag, the registered tool names, and how many
times the `init` body has begun running. -/
structure InitState where
  initialized : Bool
  tools : List String
  initRuns : Nat
deriving DecidableEq, Repr

/-- Progress of one invocation of `ensureInitialized`.  The body of
`ensureInitialized` up to and including the synchronous prefix of
`init()` (the five static registrations) runs to completion without
interleaving; `await this.init()` is a suspension point (the cooperative
event loop of the platform), after which the resumed continuation sets
`initialized := true`.  A duplicate registration raised inside `init()`
rejects the invocation before the flag is ever set. -/
inductive TaskState where
  | idle
  | awaitingInit
  | done
  | failed (dup : String)
deriving DecidableEq, Repr

/-- First atomic segment of `ensureInitialized`: read the flag; when
unset, run the synchronous registrations of `init()` and suspend; when
set, only refresh env/ctx and complete. -/
def initStart (g : InitState) (t : TaskState) : InitState × TaskState :=
  match t with
  | .idle =>
    if g.initialized then (g, .done)
    else
      match registerNames builtinTools g.tools with
      | (ts2, none) =>
        ({ g with tools := ts2, initRuns := g.initRuns + 1 }, .awaitingInit)
      | (ts2, some n) =>
        ({ g with tools := ts2, initRuns := g.initRuns + 1 }, .failed n)
  | other => (g, other)

/-- Second atomic segment: the continuation after `await this.init()`
resolves sets `initialized := true`. -/
def initResume (g : InitState) (t : TaskState) : InitState × TaskState :=
  match t with
  | .awaitingInit => ({ g with initialized := true }, .done)
  | other => (g, other)

/-- Two concurrent invocations (one per transport kind, say) against the
one shared agent instance. -/
structure TwoTasks where
  g : InitState
  a : TaskState
  b : TaskState
deriving DecidableEq, Repr

/-- Scheduler events: an invocation starts (runs its first segment), or
its awaited `init()` resolves (runs its continuation). -/
inductive InitAction where
  | startA
  | startB
  | resumeA
  | resumeB
deriving DecidableEq, Repr

/-- One scheduled event. -/
def initStep (st : TwoTasks) (act : InitAction) : TwoTasks :=
  match act with
  | .startA =>
    let (g2, t2) := initStart st.g st.a
    ⟨g2, t2, st.b⟩
  | .startB =>
    let (g2, t2) := initStart st.g st.b
    ⟨g2, st.a, t2⟩
  | .resumeA =>
    let (g2, t2) := initResume st.g st.a
    ⟨g2, t2, st.b⟩
  | .resumeB =>
    let (g2, t2) := initResume st.g st.b
    ⟨g2, st.a, t2⟩

/-- A whole schedule. -/
def initRun (st : TwoTasks) (acts : List InitAction) : TwoTasks :=
  acts.foldl initStep st

/-- A fresh process: flag unset, no tools, no init runs, both
invocations pending. -/
def freshInit : TwoTasks := ⟨⟨false, [], 0⟩, .idle, .idle⟩

/-- Claim C3 fails on the code: `ensureInitialized` sets the flag only
after `await this.init()` resolves, so the guard does not cover
interleaved invocations.  Sequentially the claim holds — the second
invocation sees the flag and setup runs once — but when the second
invocation starts while the first is suspended inside `init()`, the
`init` body begins a second time and its re-run registration of
`browser_render` raises the duplicate-tool condition, failing that
invocation. -/
theorem lazy_init_reruns_when_interleaved :
    (initRun freshInit [.startA, .resumeA, .startB] =
      ⟨⟨true, builtinTools, 1⟩, .done, .done⟩) ∧
    (initRun freshInit [.startA, .startB, .resumeA] =
      ⟨⟨true, builtinTools, 2⟩, .done, .failed "browser_render"⟩) := by
  constructor
  · rfl
  · rfl

end ColbyMcp

namespace ColbyMcp

/-- A configuration entry as `registerRemoteTools` reads it after the
unchecked cast of the parsed JSON: every field may be missing.  A `none`
element of the array (a null or non-object entry) is read through the
optional chain `config?.name` as all-missing. -/
structure RemoteToolConfigJs where
  name : Option String
  description : Option String
  endpoint : Option String
  schema : Option (List (String × RemoteToolField))

/-- JS truthiness of an optional string: missing and empty are falsy. -/
def truthyStr : Option String → Bool
  | none => false
  | some s => !(s == "")

/-- Outcome of reading and parsing `env.MCP_REMOTE_TOOLS`, the inputs the
code distinguishes (lines 361-375): variable unset (or empty, equally
falsy), `JSON.parse` throwing, parsed JSON that is not an array, or an
array of entries as the cast reads them. -/
inductive RemoteToolsEnv where
  | absent
  | unparseable
  | parsedNonArray
  | parsedArray (entries : List (Option RemoteToolConfigJs))

/-- What `registerRemoteTools` leaves behind: the registry names, the
local `registered` accumulator, whether the `setState` hook fired, and a
duplicate-tool raise (which aborts initialization before the hook). -/
structure RemoteRegResult where
  tools : List String
  registered : List String
  stateUpdated : Bool
  thrown : Option String
deriving Repr

/-- The registration loop of `registerRemoteTools` (lines 377-447): skip
an entry whose `name` or `endpoint` is falsy; otherwise `registerTool`
(raising on a duplicate name, which aborts) and accumulate the name;
after the loop, fire the `setState` hook exactly when at least one remote
tool was registered. -/
def remoteLoop : List (Option RemoteToolConfigJs) → List String →
    List String → RemoteRegResult
  | [], tools, registered => ⟨tools, registered, !registered.isEmpty, none⟩
  | none :: rest, tools, registered => remoteLoop rest tools registered
  | some cfg :: rest, tools, registered =>
    if truthyStr cfg.name && truthyStr cfg.endpoint then
      match cfg.name with
      | some n =>
        if tools.contains n then ⟨tools, registered, false, some n⟩
        else remoteLoop rest (tools ++ [n]) (registered ++ [n])
      | none => remoteLoop rest tools registered
    else remoteLoop rest tools registered

/-- `MyMCP.registerRemoteTools` (lines 360-447) over an existing registry:
a falsy variable returns at once; a parse failure is caught, logged and
returns; a non-array parse leaves the entry list empty; an array runs the
registration loop. -/
def registerRemoteTools (env : RemoteToolsEnv) (existing : List String) :
    RemoteRegResult :=
  match env with
  | .absent => ⟨existing, [], false, none⟩
  | .unparseable => ⟨existing, [], false, none⟩
  | .parsedNonArray => remoteLoop [] existing []
  | .parsedArray entries => remoteLoop entries existing []

/-- The names the loop accepts: entries with truthy name and endpoint. -/
def keptNames (entries : List (Option RemoteToolConfigJs)) : List String :=
  entries.filterMap (fun c =>
    match c with
    | some cfg =>
      if truthyStr cfg.name && truthyStr cfg.endpoint then cfg.name else none
    | none => none)

/-- The loop registers exactly the kept names, in order, when they are
mutually distinct and fresh for the registry. -/
theorem remoteLoop_spec (entries : List (Option RemoteToolConfigJs)) :
    ∀ tools registered : List String,
      (∀ n ∈ keptNames entries, tools.contains n = false) →
      (keptNames entries).Nodup →
      remoteLoop entries tools registered =
        ⟨tools ++ keptNames entries, registered ++ keptNames entries,
          !(registered ++ keptNames entries).isEmpty, none⟩ := by
  induction entries with
  | nil =>
    intro tools registered _ _
    simp [remoteLoop, keptNames]
  | cons c rest ih =>
    intro tools registered hfresh hnodup
    cases c with
    | none =>
      have hkept : keptNames (none :: rest) = keptNames rest := by
        simp [keptNames]
      rw [hkept] at hfresh hnodup
      rw [remoteLoop, hkept]
      exact ih tools registered hfresh hnodup
    | some cfg =>
      by_cases hc : (truthyStr cfg.name && truthyStr cfg.endpoint) = true
      · have hcc := hc
        simp only [Bool.and_eq_true] at hcc
        obtain ⟨hc1, hc2⟩ := hcc
        cases hn : cfg.name with
        | none =>
          rw [hn] at hc1
          simp [truthyStr] at hc1
        | some n =>
          have hc1n : truthyStr (some n) = true := hn ▸ hc1
          have hkept : keptNames (some cfg :: rest) = n :: keptNames rest := by
            simp [keptNames, List.filterMap_cons, hc1, hc1n, hc2, hn]
          rw [hkept] at hfresh hnodup
          rw [List.nodup_cons] at hnodup
          obtain ⟨hnmem, hnodup2⟩ := hnodup
          have hnfresh : tools.contains n = false := hfresh n (by simp)
          have hfresh2 : ∀ m ∈ keptNames rest,
              (tools ++ [n]).contains m = false := by
            intro m hm
            have h1 : tools.contains m = false := hfresh m (by simp [hm])
            have h2 : m ≠ n := fun he => hnmem (he ▸ hm)
            simp at h1 ⊢
            exact ⟨h1, h2⟩
          rw [remoteLoop, if_pos hc, hn]
          simp only [hnfresh, Bool.false_eq_true, if_false]
          rw [ih (tools ++ [n]) (registered ++ [n]) hfresh2 hnodup2, hkept]
          simp
      · have hcp : ¬ (truthyStr cfg.name = true ∧ truthyStr cfg.endpoint = true) := by
          simpa [Bool.and_eq_true] using hc
        have hkept : keptNames (some cfg :: rest) = keptNames rest := by
          simp [keptNames, List.filterMap_cons, hcp]
        rw [hkept] at hfresh hnodup
        rw [remoteLoop, if_neg hc, hkept]
        exact ih tools registered hfresh hnodup

/-- Claim C10: initialization tolerates bad remote-tool configuration —
an absent (falsy) configuration string, unparseable JSON, or a non-array
parse all complete with zero remote tools registered and the hook unfired;
in an array, every entry lacking a (truthy) name or endpoint is skipped
silently while the remaining entries are all registered, and the
shared-state update hook fires exactly when at least one remote tool was
registered.  (The remaining names are assumed mutually distinct and fresh
for the registry; a collision would raise the duplicate-tool condition
instead.) -/
theorem remote_tools_config_tolerated (existing : List String)
    (entries : List (Option RemoteToolConfigJs))
    (hfresh : ∀ n ∈ keptNames entries, existing.contains n = false)
    (hnodup : (keptNames entries).Nodup) :
    registerRemoteTools .absent existing =
      ⟨existing, [], false, none⟩ ∧
    registerRemoteTools .unparseable existing =
      ⟨existing, [], false, none⟩ ∧
    registerRemoteTools .parsedNonArray existing =
      ⟨existing, [], false, none⟩ ∧
    registerRemoteTools (.parsedArray entries) existing =
      ⟨existing ++ keptNames entries, keptNames entries,
        !(keptNames entries).isEmpty, none⟩ ∧
    ((registerRemoteTools (.parsedArray entries) existing).stateUpdated =
        true ↔ keptNames entries ≠ []) := by
  have harr : registerRemoteTools (.parsedArray entries) existing =
      ⟨existing ++ keptNames entries, keptNames entries,
        !(keptNames entries).isEmpty, none⟩ := by
    rw [registerRemoteTools,
      remoteLoop_spec entries existing [] hfresh hnodup]
    simp
  refine ⟨rfl, rfl, rfl, harr, ?_⟩
  rw [harr]
  simp

/-- A configuration array exercising every tolerated defect: a null
entry, an entry with no name, one with no endpoint, one with an empty
name, and two well-formed entries. -/
def entriesW : List (Option RemoteToolConfigJs) :=
  [none,
   some ⟨some "alpha", some "first remote", some "https://a.example", none⟩,
   some ⟨none, none, some "https://b.example", none⟩,
   some ⟨some "beta", none, none, none⟩,
   some ⟨some "", none, some "https://c.example", none⟩,
   some ⟨some "gamma", none, some "https://d.example", none⟩]

/-- Witness for claim C10: of the six entries exactly `alpha` and `gamma`
are registered on top of the built-in tools, the defective entries are
skipped silently, the degenerate configurations register nothing, and the
hook fires exactly because something was registered. -/
theorem remote_tools_config_tolerated_witness :
    keptNames entriesW = ["alpha", "gamma"] ∧
    registerRemoteTools .absent builtinTools =
      ⟨builtinTools, [], false, none⟩ ∧
    registerRemoteTools .unparseable builtinTools =
      ⟨builtinTools, [], false, none⟩ ∧
    registerRemoteTools .parsedNonArray builtinTools =
      ⟨builtinTools, [], false, none⟩ ∧
    registerRemoteTools (.parsedArray entriesW) builtinTools =
      ⟨builtinTools ++ keptNames entriesW, keptNames entriesW,
        !(keptNames entriesW).isEmpty, none⟩ ∧
    ((registerRemoteTools (.parsedArray entriesW) builtinTools).stateUpdated =
        true ↔ keptNames entriesW ≠ []) := by
  have h := remote_tools_config_tolerated builtinTools entriesW
    (by decide) (by decide)
  exact ⟨rfl, h.1, h.2.1, h.2.2.1, h.2.2.2.1, h.2.2.2.2⟩

end ColbyMcp
